import Mathlib

/-!
Verification of the cltoolbox merge/derivation engine against its source
(src/cltoolbox/cltoolbox.py).

The embedding models Python values that flow through the argument-spec
pipeline as the inductive `PyVal`, and Python dictionaries of keyword
metadata as association lists with Python-dict update semantics
(`setK` replaces the entry for an existing key in place, `updateK`
folds `setK` over the right-hand dictionary, as dict.update does).
-/

set_option autoImplicit false

namespace Cltoolbox

/-- Runtime type tags for the Python values the pipeline manipulates. -/
inductive PyType where
  | int
  | float
  | str
  | bool
  | list
  | noneType
  | other (name : String)
deriving DecidableEq, Repr

/-- Python values as they occur in defaults and keyword metadata:
literals, lists, the value None, and first-class type objects. A float
carries its literal text, which the pipeline never inspects. -/
inductive PyVal where
  | none
  | bool (b : Bool)
  | int (n : Int)
  | floatVal (lit : String)
  | str (s : String)
  | list (l : List PyVal)
  | typeObj (t : PyType)

/-- Identity test against Python None (the expression v is None). -/
def PyVal.isNone : PyVal → Bool
  | .none => true
  | _ => false

/-- Runtime type of a value, as Python type(obj) would report it. -/
def PyVal.typeOf : PyVal → PyType
  | .none => .noneType
  | .bool _ => .bool
  | .int _ => .int
  | .floatVal _ => .float
  | .str _ => .str
  | .list _ => .list
  | .typeObj _ => .other "type"

/-- Keyword-metadata dictionaries, modelled as association lists whose
operations preserve Python-dict key uniqueness. -/
abbrev Kwargs := List (String × PyVal)

/-- Dictionary lookup: first entry with the given key. -/
def lookupK : Kwargs → String → Option PyVal
  | [], _ => Option.none
  | (k, v) :: rest, key => if k = key then some v else lookupK rest key

/-- Dictionary assignment d[key] = v: replace the entry for key in
place when present, append otherwise. -/
def setK : Kwargs → String → PyVal → Kwargs
  | [], key, v => [(key, v)]
  | (k, w) :: rest, key, v =>
      if k = key then (key, v) :: rest else (k, w) :: setK rest key v

/-- Dictionary update d.update(e): assign every entry of e into d, in
order. -/
def updateK (d : Kwargs) (e : Kwargs) : Kwargs :=
  e.foldl (fun acc kv => setK acc kv.1 kv.2) d

/-- Embedding of _purify_kwargs (cltoolbox.py lines 22-27): drop the
entries for keys type and metavar whose value is None. -/
def _purify_kwargs (kwargs : Kwargs) : Kwargs :=
  kwargs.filter fun kv =>
    !((kv.1 == "type" || kv.1 == "metavar") && kv.2.isNone)

/-- Embedding of _get_type (cltoolbox.py lines 39-43): a type entry for
the runtime type of the object when it is one of the basic built-in
types (int, float, str, bool), nothing otherwise. -/
def _get_type (obj : PyVal) : Kwargs :=
  let t := obj.typeOf
  if t = .int ∨ t = .float ∨ t = .str ∨ t = .bool then
    [("type", PyVal.typeObj t)]
  else
    []

/-- Embedding of _action_by_type (cltoolbox.py lines 30-36): a boolean
default yields a toggle action, a list default yields the append action
together with _get_type applied to the list object itself, anything
else yields _get_type of the object. -/
def _action_by_type (obj : PyVal) : Kwargs :=
  match obj with
  | .bool b =>
      [("action", PyVal.str (if b then "store_false" else "store_true"))]
  | .list _ => ("action", PyVal.str "append") :: _get_type obj
  | _ => _get_type obj

/-- Python s.startswith(p), computed on the character lists of the two
strings. -/
def pyStartsWith (s p : String) : Bool :=
  p.data.isPrefixOf s.data

/-- Embedding of _ensure_dashes (cltoolbox.py lines 46-51): per name,
pass dashed names through, give one dash to one-character names and two
dashes to longer names. -/
def _ensure_dashes (opts : List String) : List String :=
  opts.map fun opt =>
    if pyStartsWith opt "-" then opt
    else (if opt.length > 1 then "--" else "-") ++ opt

/-- Embedding of merge (cltoolbox.py lines 425-456). The default is
Option.none for the _POSITIONAL sentinel and some d for a real default
value d (some PyVal.none is a literal None default). The override is
the (args, kwargs) pair attached by the arg decorator. -/
def merge (arg : String) (default : Option PyVal) (override : List String × Kwargs)
    (args : List String) (kwargs : Kwargs) : List String × Kwargs :=
  match default with
  | Option.none =>
      let kwargs := setK kwargs "metavar" PyVal.none
      let opts := [arg]
      let kwargs := updateK kwargs override.2
      (if override.1 = [] then opts else override.1, kwargs)
  | Option.some d =>
      let opts := _ensure_dashes (if args = [] then [arg] else args)
      let kwargs := updateK kwargs
        ([("default", d), ("dest", PyVal.str arg)] ++ _action_by_type d)
      let kwargs := updateK kwargs override.2
      (if override.1 = [] then opts else override.1, kwargs)

/-- Embedding of the per-parameter body of SubProgram._analyze_func
(cltoolbox.py lines 324-334) for a non-variadic parameter: the
docstring entry's metadata gets its type key overwritten with the
signature annotation (None when the annotation is absent), then merge
runs. -/
def analyze_one (name : String) (default : Option PyVal) (ann : Option PyVal)
    (docEntry : List String × Kwargs) (override : List String × Kwargs) :
    List String × Kwargs :=
  let meta := setK docEntry.2 "type" (ann.getD PyVal.none)
  merge name default override docEntry.1 meta

/-- Signature parameter: its name and whether it is the VAR_POSITIONAL
catch-all of the function. -/
structure Param where
  name : String
  variadic : Bool
deriving DecidableEq

/-- An introspected function signature: its parameters in declaration
order. -/
abbrev Signature := List Param

/-- The shared signature registry self._signatures: function name to
introspected signature. -/
abbrev SigRegistry := List (String × Signature)

/-- Registry lookup: first entry with the given key. -/
def lookupSig : SigRegistry → String → Option Signature
  | [], _ => Option.none
  | (k, v) :: rest, key => if k = key then some v else lookupSig rest key

/-- Registry assignment sigs[key] = v with dict semantics. -/
def setSig : SigRegistry → String → Signature → SigRegistry
  | [], key, v => [(key, v)]
  | (k, w) :: rest, key, v =>
      if k = key then (key, v) :: rest else (k, w) :: setSig rest key v

/-- Embedding of line 288 of SubProgram._generate_command: the
unconditional dict assignment
self._signatures[func.__name__] = inspect.signature(func). -/
def record_signature (sigs : SigRegistry) (name : String) (sig : Signature) :
    SigRegistry :=
  setSig sigs name sig

/-- State of the underlying argparse parser, reduced to the list of
add_argument calls it has received, each recorded by its option
strings. -/
abbrev ParserState := List (List String)

/-- Embedding of SubProgram.option (cltoolbox.py lines 137-172): attrs
holds the names of the existing attributes of the node (what hasattr
sees), st is the underlying parser state, args the option strings
passed, and dest the storage name the external parser derives for the
new argument. Returns the parser state after the call and the outcome;
a raised AssertionError is modelled as Except.error. The argument is
added to the parser before the attribute-clash check runs, mirroring
the statement order of the source. -/
def SubProgram.option (attrs : List String) (st : ParserState)
    (args : List String) (dest : String) : ParserState × Except String Unit :=
  if args = [] ∨ ¬ args.all (fun a => pyStartsWith a "-") then
    (st, Except.error "Only options starting with a dash are supported.")
  else
    let st := st ++ [args]
    if dest ∈ attrs then
      (st, Except.error "Option name clashes with an existing attribute.")
    else
      (st, Except.ok ())

/-- Embedding of SubProgram.add_subprog (cltoolbox.py lines 174-204):
the sub-parser is created first, then the attribute-clash check runs.
The state records the created sub-parsers by name. -/
def SubProgram.add_subprog (attrs : List String) (subs : List String)
    (name : String) : List String × Except String Unit :=
  let subs := subs ++ [name]
  if name ∈ attrs then
    (subs, Except.error "Sub-program name clashes with an existing attribute.")
  else
    (subs, Except.ok ())

/-- Outcome test: did the call raise? -/
def isErr : Except String Unit → Bool
  | Except.error _ => true
  | Except.ok _ => false

/-- A registered Python function, identified by its __name__ (the key
used for the signature registry at lines 288 and 392). -/
structure PyFunc where
  name : String
deriving DecidableEq

/-- List test: is the value a Python list? -/
def PyVal.isList : PyVal → Bool
  | .list _ => true
  | _ => false

/-- Python dict.pop(key): the removed value, if any, together with the
mapping without that entry. -/
def popK : Kwargs → String → Option PyVal × Kwargs
  | [], _ => (Option.none, [])
  | (k, v) :: rest, key =>
      if k = key then (some v, rest)
      else
        let r := popK rest key
        (r.1, (k, v) :: r.2)

/-- Embedding of the argument-reassembly loop of Program.parse
(cltoolbox.py lines 393-399): walk the signature parameters in
declaration order; a VAR_POSITIONAL parameter pops its value with
default [] and extends the argument list with the sequence's elements
(failure when the value is not a list); any other parameter pops its
value (a KeyError on a missing name is modelled as failure) and
appends it as one item. -/
def realArgsCode : Signature → Kwargs → Option (List PyVal)
  | [], _ => some []
  | p :: rest, argMap =>
      if p.variadic then
        match ((popK argMap p.name).1).getD (PyVal.list []) with
        | PyVal.list l =>
            (realArgsCode rest (popK argMap p.name).2).map (fun as => l ++ as)
        | _ => Option.none
      else
        match (popK argMap p.name).1 with
        | some v =>
            (realArgsCode rest (popK argMap p.name).2).map (fun as => v :: as)
        | Option.none => Option.none

/-- The claim's reading of the call-argument assembly: walk the
signature parameters in declaration order, take each parameter's
parsed value by name, and splat a variadic parameter's (possibly
empty) sequence element by element instead of appending it as one
item. -/
def realArgsSpec : Signature → Kwargs → List PyVal
  | [], _ => []
  | p :: rest, argMap =>
      (if p.variadic then
        match lookupK argMap p.name with
        | some (PyVal.list l) => l
        | _ => []
      else
        match lookupK argMap p.name with
        | some v => [v]
        | Option.none => []) ++ realArgsSpec rest argMap

/-- Embedding of Program.parse after the external parser has produced
the flat value mapping (cltoolbox.py lines 385-401): dispatch is the
value stored under the _dispatch_to key, absent when argv resolved to
no registered function, in which case parse terminates with a usage
error (modelled as failure); otherwise the registered signature of the
resolved function drives the argument reassembly. -/
def Program.parse (dispatch : Option PyFunc) (sigs : SigRegistry)
    (argMap : Kwargs) : Option (PyFunc × List PyVal) :=
  match dispatch with
  | Option.none => Option.none
  | some f =>
      match lookupSig sigs f.name with
      | Option.none => Option.none
      | some sig => (realArgsCode sig argMap).map (fun as => (f, as))

/-- Python or on optional strings, by Python truthiness: None and the
empty string are falsy, so x or y yields y exactly when x is None or
the empty string. -/
def pyOr (a b : Option String) : Option String :=
  match a with
  | Option.none => b
  | some s => if s = "" then b else some s

/-- Embedding of the description normalization inside docstring
(cltoolbox.py lines 107-110), applied to the (short_description,
long_description) pair of the parsed docstring object: the long
description falls back to the short one, then the short and the long
each fall back to the empty string. -/
def docstring_descriptions (p : Option String × Option String) :
    String × String :=
  let long := pyOr p.2 p.1
  let short := (pyOr p.1 (some "")).getD ""
  let long2 := (pyOr long (some "")).getD ""
  (short, long2)

/-- Whitespace as Python str.strip treats it: space, tab, newline,
carriage return, vertical tab, form feed. -/
def pyIsSpace (c : Char) : Bool :=
  c == ' ' || c == '\t' || c == '\n' || c == '\r' || c == '\x0b' || c == '\x0c'

/-- Python str.strip on a character list. -/
def stripChars (cs : List Char) : List Char :=
  ((cs.dropWhile pyIsSpace).reverse.dropWhile pyIsSpace).reverse

/-- Python text.split on the two-newline separator: the list of chunks
between non-overlapping occurrences of a blank line. The second
argument accumulates the current chunk reversed. -/
def splitNN : List Char → List Char → List (List Char)
  | [], cur => [cur.reverse]
  | '\n' :: '\n' :: rest, cur => cur.reverse :: splitNN rest []
  | c :: rest, cur => splitNN rest (c :: cur)

/-- Joining chunks back with blank-line separators. -/
def joinNN : List (List Char) → List Char
  | [] => []
  | [x] => x
  | x :: rest => x ++ '\n' :: '\n' :: joinNN rest

/-- Modelled from the spec: the external docstring-parsing collaborator
(docstring_parser.parse) is out of scope and not part of the source
tree; only its short/long description extraction is modelled here, as
the spec describes it: the first paragraph (up to the first blank
line) is the short description, the remainder the long description,
and blank input yields neither. -/
def ds_parse_desc (dstr : String) : Option String × Option String :=
  let t := stripChars dstr.data
  if t = [] then (Option.none, Option.none)
  else
    match splitNN t [] with
    | [] => (Option.none, Option.none)
    | [x] => (some (String.mk (stripChars x)), Option.none)
    | x :: rest =>
        (some (String.mk (stripChars x)),
         some (String.mk (stripChars (joinNN rest))))

/-- The (short, long) descriptions the docstring function returns for
raw docstring text: external parse followed by normalization. -/
def docstring_desc (dstr : String) : String × String :=
  docstring_descriptions (ds_parse_desc dstr)

/-- Python str.splitlines restricted to newline separators: the lines
without their terminators; a trailing newline adds no extra empty
line, and empty text has no lines. -/
def splitlinesGo : List Char → List Char → List (List Char)
  | [], cur => [cur.reverse]
  | '\n' :: rest, cur =>
      cur.reverse :: (if rest = [] then [] else splitlinesGo rest [])
  | c :: rest, cur => splitlinesGo rest (c :: cur)

/-- Python str.splitlines on a string (newline separators only). -/
def pySplitlines (s : String) : List String :=
  if s.data = [] then [] else (splitlinesGo s.data []).map String.mk

/-- Lossless split of text at every newline (Python text.split of a
single newline): rejoining with joinNl restores the text. -/
def splitNlGo : List Char → List Char → List (List Char)
  | [], cur => [cur.reverse]
  | '\n' :: rest, cur => cur.reverse :: splitNlGo rest []
  | c :: rest, cur => splitNlGo rest (c :: cur)

/-- Rejoin newline-split chunks. -/
def joinNl : List (List Char) → List Char
  | [] => []
  | [x] => x
  | x :: rest => x ++ '\n' :: joinNl rest

/-- Leading run of spaces and tabs of a line, the margin candidate of
textwrap.dedent. -/
def leadingWs (cs : List Char) : List Char :=
  cs.takeWhile fun c => c == ' ' || c == '\t'

/-- Longest common prefix of two character lists. -/
def commonPrefix : List Char → List Char → List Char
  | a :: as, b :: bs => if a = b then a :: commonPrefix as bs else []
  | _, _ => []

/-- The margin of textwrap.dedent: the common leading whitespace of
every line holding a character other than space or tab. -/
def dedentMargin (lines : List (List Char)) : Option (List Char) :=
  lines.foldl
    (fun m line =>
      if line.any (fun c => !(c == ' ' || c == '\t')) then
        match m with
        | Option.none => some (leadingWs line)
        | some mm => some (commonPrefix mm (leadingWs line))
      else m)
    Option.none

/-- Model of textwrap.dedent for newline-separated text: first empty
the lines consisting solely of spaces and tabs, then remove the common
margin from every line that starts with it. -/
def pyDedent (s : String) : String :=
  let lines := (splitNlGo s.data []).map fun line =>
    if line ≠ [] ∧ line.all (fun c => c == ' ' || c == '\t') then [] else line
  let margin := (dedentMargin lines).getD []
  String.mk (joinNl (lines.map fun line =>
    if margin.isPrefixOf line then line.drop margin.length else line))

/-- The blank-run collapse of _split_paragraphs (line 489): replace
every run of three or more newlines by exactly two, as
re.sub of the pattern of two newlines followed by one or more further
newlines does. The counter tracks pending newlines. -/
def collapseNlGo (pending : Nat) : List Char → List Char
  | [] => List.replicate (min pending 2) '\n'
  | c :: rest =>
      if c = '\n' then collapseNlGo (pending + 1) rest
      else List.replicate (min pending 2) '\n' ++ c :: collapseNlGo 0 rest

/-- Blank-run collapse on strings. -/
def collapseBlankRuns (s : String) : String :=
  String.mk (collapseNlGo 0 s.data)

/-- The character class of word characters in the list-marker pattern
of _indents (ASCII reading of a word character). -/
def isWordChar (c : Char) : Bool :=
  c.isAlphanum || c == '_'

/-- Embedding of FlexiHelpFormatter._indents (cltoolbox.py lines
477-483): the count of leading spaces, and the sub-indent for lines
opening with a bullet marker (a run of asterisk, dash, plus or
greater-than characters) or an ordered-list marker (a word followed by
a closing parenthesis or a period), each followed by at least one
space: the indent plus the length of the marker text including its
trailing spaces; otherwise the sub-indent equals the indent. -/
def indents (line : String) : Nat × Nat :=
  let cs := line.data
  let ind := (cs.takeWhile fun c => c == ' ').length
  let rest := cs.dropWhile fun c => c == ' '
  let bullet := rest.takeWhile fun c =>
    c == '*' || c == '-' || c == '+' || c == '>'
  let sub :=
    if bullet ≠ [] then
      let spaces := (rest.drop bullet.length).takeWhile fun c => c == ' '
      if spaces ≠ [] then ind + bullet.length + spaces.length else ind
    else
      let w := rest.takeWhile isWordChar
      if w ≠ [] then
        match rest.drop w.length with
        | c :: after =>
            if c = ')' ∨ c = '.' then
              let spaces := after.takeWhile fun c2 => c2 == ' '
              if spaces ≠ [] then ind + w.length + 1 + spaces.length else ind
            else ind
        | [] => ind
      else ind
  (ind, sub)

/-- One step of the paragraph-accumulation loop of _split_paragraphs
(cltoolbox.py lines 491-503): the state is the paragraphs so far and
the last sub-indent, None after a blank line; a text line whose indent
and sub-indent both equal the last sub-indent is appended to the last
paragraph with a joining space, any other line opens a new
paragraph. -/
def splitParasStep (st : List String × Option Nat) (line : String) :
    List String × Option Nat :=
  let ind := (indents line).1
  let subInd := (indents line).2
  let isText := stripChars line.data ≠ []
  let paragraphs :=
    if isText ∧ ind = subInd ∧ st.2 = some subInd then
      match st.1 with
      | [] => [line]
      | ps => ps.dropLast ++ [ps.getLastD "" ++ " " ++ line]
    else
      st.1 ++ [line]
  (paragraphs, if isText then some subInd else Option.none)

/-- Embedding of FlexiHelpFormatter._split_paragraphs (cltoolbox.py
lines 485-503): dedent, strip, collapse blank runs, then fold the
accumulation step over the lines. -/
def split_paragraphs (text : String) : List String :=
  ((pySplitlines (collapseBlankRuns
    (String.mk (stripChars (pyDedent text).data)))).foldl
      splitParasStep ([], Option.none)).1

/-- Whitespace collapse of the argparse help formatter (the
whitespace-matcher substitution): every whitespace run becomes one
space; the flag records whether the previous character was
whitespace. -/
def collapseWsGo (prevSpace : Bool) : List Char → List Char
  | [] => []
  | c :: rest =>
      if pyIsSpace c then
        (if prevSpace then [] else [' ']) ++ collapseWsGo true rest
      else c :: collapseWsGo false rest

/-- Split on single spaces, for the word chunks of wrapping. -/
def splitSpGo : List Char → List Char → List (List Char)
  | [], cur => [cur.reverse]
  | ' ' :: rest, cur => cur.reverse :: splitSpGo rest []
  | c :: rest, cur => splitSpGo rest (c :: cur)

/-- Greedy fill of the words after the first against the width: a word
joins the current line when the line, one space and the word fit,
and otherwise opens a new line prefixed with the subsequent indent. -/
def fillWords (width : Nat) (sub : List Char) :
    List (List Char) → List Char → List (List Char)
  | [], cur => [cur]
  | w :: ws, cur =>
      if cur.length + 1 + w.length ≤ width then
        fillWords width sub ws (cur ++ ' ' :: w)
      else
        cur :: fillWords width sub ws (sub ++ w)

/-- Greedy refill model of textwrap.wrap for text whose whitespace is
already collapsed to single spaces: split into words and fill lines
greedily, prefixing the first line with the initial indent and later
lines with the subsequent indent; long words are not broken; empty
text yields no lines. -/
def wrapText (para : String) (width : Nat) (ini sub : List Char) :
    List String :=
  match (splitSpGo para.data []).filter (fun w => w ≠ []) with
  | [] => []
  | w :: ws => (fillWords width sub ws (ini ++ w)).map String.mk

/-- Per-paragraph body of FlexiHelpFormatter._para_reformat
(cltoolbox.py lines 509-521): compute the indents of the paragraph,
collapse its whitespace, wrap it, and put back a blank line when
wrapping ate the paragraph. -/
def reformatPara (para : String) (width : Nat) : List String :=
  let ind := (indents para).1
  let subInd := (indents para).2
  let p := String.mk (stripChars (collapseWsGo false para.data))
  let newLines :=
    wrapText p width (List.replicate ind ' ') (List.replicate subInd ' ')
  if newLines = [] then [""] else newLines

/-- Embedding of FlexiHelpFormatter._para_reformat (cltoolbox.py lines
505-523): reformat each paragraph and concatenate the lines. -/
def para_reformat (text : String) (width : Nat) : List String :=
  (split_paragraphs text).foldl
    (fun lines para => lines ++ reformatPara para width) []

theorem updateK_nil (d : Kwargs) : updateK d [] = d := rfl

theorem updateK_cons (d : Kwargs) (kv : String × PyVal) (e : Kwargs) :
    updateK d (kv :: e) = updateK (setK d kv.1 kv.2) e := rfl

theorem lookupK_setK_self (d : Kwargs) (k : String) (v : PyVal) :
    lookupK (setK d k v) k = some v := by
  induction d with
  | nil => simp [setK, lookupK]
  | cons kv rest ih =>
      obtain ⟨k1, v1⟩ := kv
      by_cases h : k1 = k
      · simp [setK, h, lookupK]
      · simp [setK, h, lookupK, ih]

theorem lookupK_setK_ne (d : Kwargs) (k key : String) (v : PyVal) (h : k ≠ key) :
    lookupK (setK d k v) key = lookupK d key := by
  induction d with
  | nil => simp [setK, lookupK, h]
  | cons kv rest ih =>
      obtain ⟨k1, v1⟩ := kv
      by_cases hk : k1 = k
      · subst hk
        simp [setK, lookupK, h]
      · simp [setK, hk, lookupK, ih]

theorem lookupK_eq_none_iff (d : Kwargs) (key : String) :
    lookupK d key = Option.none ↔ key ∉ d.map Prod.fst := by
  induction d with
  | nil => simp [lookupK]
  | cons kv rest ih =>
      obtain ⟨k1, v1⟩ := kv
      by_cases h : k1 = key
      · simp [lookupK, h]
      · simp [lookupK, h, ih, Ne.symm h]

theorem lookupK_updateK_right_none (d e : Kwargs) (key : String)
    (h : lookupK e key = Option.none) :
    lookupK (updateK d e) key = lookupK d key := by
  induction e generalizing d with
  | nil => rfl
  | cons kv rest ih =>
      obtain ⟨k1, v1⟩ := kv
      have hk : k1 ≠ key := by
        intro hcon
        simp [lookupK, hcon] at h
      have hrest : lookupK rest key = Option.none := by
        simpa [lookupK, hk] using h
      rw [updateK_cons, ih _ hrest, lookupK_setK_ne _ _ _ _ hk]

theorem lookupK_updateK_right_some (d e : Kwargs) (key : String) (v : PyVal)
    (hnd : (e.map Prod.fst).Nodup) (h : lookupK e key = some v) :
    lookupK (updateK d e) key = some v := by
  induction e generalizing d with
  | nil => simp [lookupK] at h
  | cons kv rest ih =>
      obtain ⟨k1, v1⟩ := kv
      rw [updateK_cons]
      by_cases hk : k1 = key
      · have hv : v1 = v := by simpa [lookupK, hk] using h
        have hnotin : key ∉ rest.map Prod.fst := by
          subst hk
          exact (List.nodup_cons.mp (by simpa using hnd)).1
        have hrest : lookupK rest key = Option.none :=
          (lookupK_eq_none_iff rest key).mpr hnotin
        rw [lookupK_updateK_right_none _ _ _ hrest]
        subst hk hv
        exact lookupK_setK_self d k1 v1
      · have hrest : lookupK rest key = some v := by
          simpa [lookupK, hk] using h
        have hnd2 : (rest.map Prod.fst).Nodup := by
          have h2 := hnd
          simp only [List.map_cons, List.nodup_cons] at h2
          exact h2.2
        exact ih _ hnd2 hrest

theorem keys_setK (d : Kwargs) (k : String) (v : PyVal) :
    (setK d k v).map Prod.fst =
      if k ∈ d.map Prod.fst then d.map Prod.fst else d.map Prod.fst ++ [k] := by
  induction d with
  | nil => simp [setK]
  | cons kv rest ih =>
      obtain ⟨k1, v1⟩ := kv
      by_cases h : k1 = k
      · simp [setK, h]
      · simp only [setK, if_neg h, List.map_cons, ih]
        by_cases hmem : k ∈ rest.map Prod.fst
        · simp [hmem, Ne.symm h]
        · simp [hmem, Ne.symm h]

theorem nodup_keys_setK (d : Kwargs) (k : String) (v : PyVal)
    (hnd : (d.map Prod.fst).Nodup) : ((setK d k v).map Prod.fst).Nodup := by
  rw [keys_setK]
  by_cases hmem : k ∈ d.map Prod.fst
  · simpa [hmem] using hnd
  · simp only [if_neg hmem]
    refine List.Nodup.append hnd (List.nodup_singleton k) ?_
    intro a ha hb
    rw [List.mem_singleton] at hb
    exact hmem (hb ▸ ha)

theorem nodup_keys_updateK (d e : Kwargs)
    (hnd : (d.map Prod.fst).Nodup) : ((updateK d e).map Prod.fst).Nodup := by
  induction e generalizing d with
  | nil => exact hnd
  | cons kv rest ih =>
      rw [updateK_cons]
      exact ih _ (nodup_keys_setK d kv.1 kv.2 hnd)

theorem lookupK_filter_none (d : Kwargs) (p : String × PyVal → Bool) (key : String)
    (h : lookupK d key = Option.none) :
    lookupK (d.filter p) key = Option.none := by
  induction d with
  | nil => simp [lookupK]
  | cons kv rest ih =>
      obtain ⟨k1, v1⟩ := kv
      have hk : k1 ≠ key := by
        intro hcon
        simp [lookupK, hcon] at h
      have hrest : lookupK rest key = Option.none := by
        simpa [lookupK, hk] using h
      by_cases hp : p (k1, v1)
      · simpa [List.filter, hp, lookupK, hk] using ih hrest
      · simpa [List.filter, hp] using ih hrest

theorem lookupK_purify_none (d : Kwargs) (key : String)
    (hnd : (d.map Prod.fst).Nodup)
    (hkey : key = "type" ∨ key = "metavar")
    (h : lookupK d key = some PyVal.none) :
    lookupK (_purify_kwargs d) key = Option.none := by
  induction d with
  | nil => simp [lookupK] at h
  | cons kv rest ih =>
      obtain ⟨k1, v1⟩ := kv
      by_cases hk : k1 = key
      · have hv : v1 = PyVal.none := by simpa [lookupK, hk] using h
        have hnotin : key ∉ rest.map Prod.fst := by
          subst hk
          exact (List.nodup_cons.mp (by simpa using hnd)).1
        have hrest : lookupK rest key = Option.none :=
          (lookupK_eq_none_iff rest key).mpr hnotin
        have hdrop :
            (!((k1 == "type" || k1 == "metavar") && v1.isNone)) = false := by
          subst hk hv
          rcases hkey with hkey | hkey <;> simp [hkey, PyVal.isNone]
        simpa [_purify_kwargs, List.filter, hdrop] using
          lookupK_filter_none rest _ key hrest
      · have hrest : lookupK rest key = some PyVal.none := by
          simpa [lookupK, hk] using h
        have hnd2 : (rest.map Prod.fst).Nodup :=
          (List.nodup_cons.mp (by simpa using hnd)).2
        by_cases hp : (!((k1 == "type" || k1 == "metavar") && v1.isNone)) = true
        · simpa [_purify_kwargs, List.filter, hp, lookupK, hk] using ih hnd2 hrest
        · simp only [Bool.not_eq_true] at hp
          simpa [_purify_kwargs, List.filter, hp] using ih hnd2 hrest

theorem popK_fst (m : Kwargs) (key : String) :
    (popK m key).1 = lookupK m key := by
  induction m with
  | nil => rfl
  | cons kv rest ih =>
      obtain ⟨k1, v1⟩ := kv
      by_cases h : k1 = key
      · simp [popK, lookupK, h]
      · simp [popK, lookupK, h, ih]

theorem lookupK_popK_snd_ne (m : Kwargs) (key other : String)
    (h : other ≠ key) :
    lookupK (popK m key).2 other = lookupK m other := by
  induction m with
  | nil => rfl
  | cons kv rest ih =>
      obtain ⟨k1, v1⟩ := kv
      by_cases hk : k1 = key
      · subst hk
        simp [popK, lookupK, Ne.symm h]
      · by_cases ho : k1 = other
        · subst ho
          simp [popK, lookupK, hk]
        · simp [popK, lookupK, hk, ho, ih]

theorem realArgsSpec_congr (sig : Signature) (m1 m2 : Kwargs)
    (h : ∀ q ∈ sig, lookupK m1 q.name = lookupK m2 q.name) :
    realArgsSpec sig m1 = realArgsSpec sig m2 := by
  induction sig with
  | nil => rfl
  | cons p rest ih =>
      have hp := h p (List.mem_cons_self p rest)
      have hr := ih fun q hq => h q (List.mem_cons_of_mem p hq)
      simp only [realArgsSpec, hp, hr]

theorem realArgs_loop_eq (sig : Signature) (argMap : Kwargs)
    (hnd : (sig.map Param.name).Nodup)
    (hpres : ∀ p ∈ sig, p.variadic = false →
      (lookupK argMap p.name).isSome = true)
    (hvar : ∀ p ∈ sig, p.variadic = true →
      ((lookupK argMap p.name).getD (PyVal.list [])).isList = true) :
    realArgsCode sig argMap = some (realArgsSpec sig argMap) := by
  induction sig generalizing argMap with
  | nil => rfl
  | cons p rest ih =>
      have hnd2 : (rest.map Param.name).Nodup := by
        have h2 := hnd
        simp only [List.map_cons, List.nodup_cons] at h2
        exact h2.2
      have hpne : p.name ∉ rest.map Param.name := by
        have h2 := hnd
        simp only [List.map_cons, List.nodup_cons] at h2
        exact h2.1
      have hagree : ∀ q ∈ rest,
          lookupK (popK argMap p.name).2 q.name = lookupK argMap q.name := by
        intro q hq
        refine lookupK_popK_snd_ne argMap p.name q.name fun hcon => ?_
        exact hpne (hcon ▸ List.mem_map_of_mem Param.name hq)
      have hrest := ih (popK argMap p.name).2 hnd2
        (fun q hq hqv => by
          rw [hagree q hq]
          exact hpres q (List.mem_cons_of_mem p hq) hqv)
        (fun q hq hqv => by
          rw [hagree q hq]
          exact hvar q (List.mem_cons_of_mem p hq) hqv)
      have hspecagree := realArgsSpec_congr rest (popK argMap p.name).2 argMap
        hagree
      by_cases hv : p.variadic = true
      · have hlist := hvar p (List.mem_cons_self p rest) hv
        rcases hlook : lookupK argMap p.name with _ | v
        · simp [realArgsCode, realArgsSpec, hv, popK_fst, hlook, hrest,
            hspecagree]
        · have hl : ∃ l, v = PyVal.list l := by
            rw [hlook, Option.getD_some] at hlist
            cases v with
            | list l => exact ⟨l, rfl⟩
            | none => exact absurd hlist (by simp [PyVal.isList])
            | bool b => exact absurd hlist (by simp [PyVal.isList])
            | int n => exact absurd hlist (by simp [PyVal.isList])
            | floatVal lit => exact absurd hlist (by simp [PyVal.isList])
            | str s => exact absurd hlist (by simp [PyVal.isList])
            | typeObj t => exact absurd hlist (by simp [PyVal.isList])
          obtain ⟨l, rfl⟩ := hl
          simp [realArgsCode, realArgsSpec, hv, popK_fst, hlook, hrest,
            hspecagree]
      · rw [Bool.not_eq_true] at hv
        have hsome := hpres p (List.mem_cons_self p rest) hv
        rcases hlook : lookupK argMap p.name with _ | v
        · rw [hlook] at hsome
          simp at hsome
        · simp [realArgsCode, realArgsSpec, hv, popK_fst, hlook, hrest,
            hspecagree]

/-- C5: parse applied to a namespace that resolved to a registered
function f returns f itself together with the call arguments obtained
by walking the registered signature in declaration order, taking each
parameter's value by name, with a variadic parameter's sequence
splatted element by element. The hypotheses state that the namespace
is one the external parser can actually produce for this signature:
distinct parameter names, a value for every non-variadic parameter,
and list values for variadic parameters. -/
theorem C5_parse_dispatch (f : PyFunc) (sigs : SigRegistry) (sig : Signature)
    (argMap : Kwargs)
    (hsig : lookupSig sigs f.name = some sig)
    (hnd : (sig.map Param.name).Nodup)
    (hpres : ∀ p ∈ sig, p.variadic = false →
      (lookupK argMap p.name).isSome = true)
    (hvar : ∀ p ∈ sig, p.variadic = true →
      ((lookupK argMap p.name).getD (PyVal.list [])).isList = true) :
    Program.parse (some f) sigs argMap = some (f, realArgsSpec sig argMap) := by
  simp only [Program.parse, hsig, realArgs_loop_eq sig argMap hnd hpres hvar]
  rfl

/-- C5 witness: the command cmd with a required parameter a and a
variadic parameter rest, parsed values a=1 and rest=[2, 3]: parse
returns cmd with the argument list [1, 2, 3] (the variadic sequence
splatted, not nested). -/
theorem C5_parse_dispatch_witness :
    Program.parse (some (PyFunc.mk "cmd"))
      [("cmd", [Param.mk "a" false, Param.mk "rest" true])]
      [("a", PyVal.str "1"), ("rest", PyVal.list [PyVal.int 2, PyVal.int 3])] =
      some (PyFunc.mk "cmd",
        [PyVal.str "1", PyVal.int 2, PyVal.int 3]) := by
  exact C5_parse_dispatch (PyFunc.mk "cmd")
    [("cmd", [Param.mk "a" false, Param.mk "rest" true])]
    [Param.mk "a" false, Param.mk "rest" true]
    [("a", PyVal.str "1"), ("rest", PyVal.list [PyVal.int 2, PyVal.int 3])]
    rfl (by simp) (by decide) (by decide)

/-- C1 counterexample: for the default [1, 2], a non-empty list whose
elements all share the basic type int, _action_by_type yields the
append action with no type entry at all, not the append action plus
the element type int that the claim requires. -/
theorem C1_counterexample :
    _action_by_type (PyVal.list [PyVal.int 1, PyVal.int 2]) =
      [("action", PyVal.str "append")] ∧
    lookupK (_action_by_type (PyVal.list [PyVal.int 1, PyVal.int 2])) "type" =
      Option.none := by
  exact ⟨rfl, rfl⟩

/-- C1 amended: for every list default, whatever its elements (empty,
homogeneous of a basic type, or mixed), type/action inference yields
exactly the append action and never a type entry, because _get_type is
applied to the list object itself, whose type list is not a basic
type. -/
theorem C1_list_default_append_no_type (l : List PyVal) :
    _action_by_type (PyVal.list l) = [("action", PyVal.str "append")] := by
  simp [_action_by_type, _get_type, PyVal.typeOf]

theorem action_by_type_keys_nodup (d : PyVal) :
    ((_action_by_type d).map Prod.fst).Nodup := by
  cases d <;> simp [_action_by_type, _get_type, PyVal.typeOf]

/-- C2 counterexample: the parameter x annotated str with default 5
(an int) and no override: the merged type entry is the int type
inferred from the default value, not the declared annotation str, so
the annotation does not take precedence over the inferred type. -/
theorem C2_counterexample :
    lookupK (analyze_one "x" (some (PyVal.int 5))
      (some (PyVal.typeObj PyType.str)) ([], []) ([], [])).2 "type" =
      some (PyVal.typeObj PyType.int) ∧
    PyVal.typeObj PyType.int ≠ PyVal.typeObj PyType.str := by
  refine ⟨rfl, by simp⟩

/-- C2 amended: for a parameter with both an annotation and a default
and no override supplying type, the docstring-provided type is always
overwritten by the annotation, and the final merged type entry equals
the annotation unless type/action inference from the default value
itself produces a type entry (defaults of type int, float, or str),
in which case that inferred type overwrites the annotation. -/
theorem C2_annotation_merge (name : String) (d : PyVal) (ann : PyVal)
    (docEntry : List String × Kwargs) (override : List String × Kwargs)
    (hov : lookupK override.2 "type" = Option.none) :
    lookupK (analyze_one name (some d) (some ann) docEntry override).2 "type" =
      some ((lookupK (_action_by_type d) "type").getD ann) := by
  have habt := action_by_type_keys_nodup d
  simp only [analyze_one, merge, Option.getD_some, List.cons_append,
    List.nil_append]
  rw [lookupK_updateK_right_none _ _ _ hov]
  rw [updateK_cons, updateK_cons]
  rcases hres : lookupK (_action_by_type d) "type" with _ | t
  · rw [lookupK_updateK_right_none _ _ _ hres,
      lookupK_setK_ne _ _ _ _ (by simp), lookupK_setK_ne _ _ _ _ (by simp),
      lookupK_setK_self]
    simp
  · rw [lookupK_updateK_right_some _ _ _ _ habt hres]
    simp

/-- C2 amended witness: a bool default (whose inference produces no
type entry) with annotation str and a docstring type entry: the merged
type is the annotation. -/
theorem C2_annotation_merge_witness :
    lookupK (analyze_one "x" (some (PyVal.bool true))
      (some (PyVal.typeObj PyType.str)) ([], [("type", PyVal.str "doctype")])
      (["-x"], [("help", PyVal.str "h")])).2 "type" =
      some (PyVal.typeObj PyType.str) := by
  exact C2_annotation_merge "x" (PyVal.bool true) (PyVal.typeObj PyType.str)
    ([], [("type", PyVal.str "doctype")]) (["-x"], [("help", PyVal.str "h")]) rfl

/-- C3 counterexample: a positional parameter whose override supplies
no option strings but supplies a non-None metavar: after purification
the metavar entry is still present, so the claim's hypothesis (no
override option strings) does not suffice for its conclusion. -/
theorem C3_counterexample :
    (merge "p" Option.none ([], [("metavar", PyVal.str "X")]) [] []).1 =
      ["p"] ∧
    lookupK (_purify_kwargs
      (merge "p" Option.none ([], [("metavar", PyVal.str "X")]) [] []).2)
      "metavar" = some (PyVal.str "X") := by
  exact ⟨rfl, rfl⟩

/-- C3 amended: for a positional parameter (no default), when the
override supplies no option strings and no metavar value other than
None, the merged spec has option strings exactly [name] and, after the
final stripping of unset keys, no metavar entry. -/
theorem C3_positional_spec (name : String) (docEntry : List String × Kwargs)
    (override : List String × Kwargs)
    (hnd : (docEntry.2.map Prod.fst).Nodup)
    (hovnd : (override.2.map Prod.fst).Nodup)
    (hov1 : override.1 = [])
    (hov2 : lookupK override.2 "metavar" = Option.none ∨
            lookupK override.2 "metavar" = some PyVal.none) :
    (merge name Option.none override docEntry.1 docEntry.2).1 = [name] ∧
    lookupK (_purify_kwargs
      (merge name Option.none override docEntry.1 docEntry.2).2) "metavar" =
      Option.none := by
  constructor
  · simp [merge, hov1]
  · have hmv : lookupK (updateK (setK docEntry.2 "metavar" PyVal.none)
        override.2) "metavar" = some PyVal.none := by
      rcases hov2 with hov2 | hov2
      · rw [lookupK_updateK_right_none _ _ _ hov2, lookupK_setK_self]
      · exact lookupK_updateK_right_some _ _ _ _ hovnd hov2
    have hnd2 : ((updateK (setK docEntry.2 "metavar" PyVal.none)
        override.2).map Prod.fst).Nodup :=
      nodup_keys_updateK _ _ (nodup_keys_setK _ _ _ hnd)
    simpa [merge] using
      lookupK_purify_none _ "metavar" hnd2 (Or.inr rfl) hmv

/-- C3 amended witness: a concrete positional parameter p whose
docstring metadata carries help text and a metavar, with an empty
override: the spec is ([p], no metavar after purification). -/
theorem C3_positional_spec_witness :
    (merge "p" Option.none ([], [])
      ["p"] [("help", PyVal.str "h"), ("metavar", PyVal.str "M")]).1 =
      ["p"] ∧
    lookupK (_purify_kwargs (merge "p" Option.none ([], [])
      ["p"] [("help", PyVal.str "h"), ("metavar", PyVal.str "M")]).2)
      "metavar" = Option.none := by
  exact C3_positional_spec "p"
    (["p"], [("help", PyVal.str "h"), ("metavar", PyVal.str "M")]) ([], [])
    (by simp) (by simp) rfl (Or.inl rfl)

/-- C4: in merge, a non-empty override option-string sequence fully
replaces the computed option strings, and the override keyword
metadata is merged last, so every key it supplies ends up in the
merged result with the override value, for positional and optional
parameters alike. -/
theorem C4_override_wins (arg : String) (default : Option PyVal)
    (override : List String × Kwargs) (args : List String) (kwargs : Kwargs) :
    (override.1 ≠ [] →
      (merge arg default override args kwargs).1 = override.1) ∧
    ((override.2.map Prod.fst).Nodup →
      ∀ key v, lookupK override.2 key = some v →
        lookupK (merge arg default override args kwargs).2 key = some v) := by
  constructor
  · intro h
    cases default <;> simp [merge, h]
  · intro hnd key v hv
    cases default <;> simp only [merge] <;>
      exact lookupK_updateK_right_some _ _ _ _ hnd hv

/-- C4 witness: a concrete positional parameter with override
([-z], default=7): the option strings become [-z] and the merged
default is the override value 7. -/
theorem C4_override_wins_witness :
    (merge "x" Option.none (["-z"], [("default", PyVal.int 7)]) [] []).1 =
      ["-z"] ∧
    lookupK (merge "x" Option.none (["-z"], [("default", PyVal.int 7)]) [] []).2
      "default" = some (PyVal.int 7) := by
  refine ⟨(C4_override_wins "x" Option.none (["-z"], [("default", PyVal.int 7)])
    [] []).1 (by simp), ?_⟩
  exact (C4_override_wins "x" Option.none (["-z"], [("default", PyVal.int 7)])
    [] []).2 (by simp) "default" (PyVal.int 7) rfl

/-- C6 counterexample: with the registry already holding an entry for
name f, registering another function named f with a different
signature replaces the stored entry: the registry entry does not stay
unchanged as the claim requires. -/
theorem C6_counterexample :
    lookupSig (record_signature [("f", [Param.mk "x" false])] "f" []) "f" =
      some [] ∧
    (some ([] : Signature) ≠ some [Param.mk "x" false]) := by
  refine ⟨rfl, by simp⟩

/-- C6 amended: registering a command always records the freshly
introspected signature in the shared registry under the function's own
name, overwriting any existing entry for that name; entries under
other names are left unchanged. -/
theorem C6_record_signature_overwrites (sigs : SigRegistry) (name : String)
    (sig : Signature) :
    lookupSig (record_signature sigs name sig) name = some sig ∧
    (∀ other, other ≠ name →
      lookupSig (record_signature sigs name sig) other = lookupSig sigs other) := by
  constructor
  · induction sigs with
    | nil => simp [record_signature, setSig, lookupSig]
    | cons kv rest ih =>
        obtain ⟨k1, v1⟩ := kv
        by_cases h : k1 = name
        · simp [record_signature, setSig, h, lookupSig]
        · simpa [record_signature, setSig, h, lookupSig] using ih
  · intro other hne
    induction sigs with
    | nil => simp [record_signature, setSig, lookupSig, Ne.symm hne]
    | cons kv rest ih =>
        obtain ⟨k1, v1⟩ := kv
        by_cases h : k1 = name
        · subst h
          simp [record_signature, setSig, lookupSig, Ne.symm hne]
        · by_cases ho : k1 = other
          · subst ho
            simp [record_signature, setSig, h, lookupSig]
          · simpa [record_signature, setSig, h, lookupSig, ho] using ih

/-- C6 amended witness: overwriting at name f and preserving the entry
at name g, on a concrete two-entry registry. -/
theorem C6_record_signature_overwrites_witness :
    lookupSig (record_signature [("f", [Param.mk "x" false]), ("g", [])] "f"
      [Param.mk "y" true]) "f" = some [Param.mk "y" true] ∧
    lookupSig (record_signature [("f", [Param.mk "x" false]), ("g", [])] "f"
      [Param.mk "y" true]) "g" = some [] := by
  refine ⟨(C6_record_signature_overwrites [("f", [Param.mk "x" false]), ("g", [])]
    "f" [Param.mk "y" true]).1, ?_⟩
  exact (C6_record_signature_overwrites [("f", [Param.mk "x" false]), ("g", [])]
    "f" [Param.mk "y" true]).2 "g" (by simp)

/-- C7: each misconfiguration raises at registration time: a
global-option call with no names, or with a name not starting with a
dash, or whose derived storage name equals an existing attribute, and
a sub-program creation whose name equals an existing attribute, all
return an error outcome. -/
theorem C7_config_errors_raise :
    (∀ attrs st dest, isErr (SubProgram.option attrs st [] dest).2 = true) ∧
    (∀ attrs st args dest a, a ∈ args → pyStartsWith a "-" = false →
      isErr (SubProgram.option attrs st args dest).2 = true) ∧
    (∀ attrs st args dest, dest ∈ attrs →
      isErr (SubProgram.option attrs st args dest).2 = true) ∧
    (∀ attrs subs name, name ∈ attrs →
      isErr (SubProgram.add_subprog attrs subs name).2 = true) := by
  refine ⟨?_, ?_, ?_, ?_⟩
  · intro attrs st dest
    simp [SubProgram.option, isErr]
  · intro attrs st args dest a ha hdash
    have hall : ¬ args.all (fun a => pyStartsWith a "-") := by
      simp only [List.all_eq_true, not_forall]
      exact ⟨a, ha, by simp [hdash]⟩
    simp [SubProgram.option, hall, isErr]
  · intro attrs st args dest hdest
    unfold SubProgram.option
    split
    · simp [isErr]
    · simp [hdest, isErr]
  · intro attrs subs name hname
    simp [SubProgram.add_subprog, hname, isErr]

/-- C7 witness: concrete instances of all four failure modes: an empty
option call, a positional-style name, a storage-name clash with an
existing attribute, and a sub-program name clash. -/
theorem C7_config_errors_raise_witness :
    isErr (SubProgram.option ["parser"] [] [] "v").2 = true ∧
    isErr (SubProgram.option ["parser"] [] ["verbose"] "verbose").2 = true ∧
    isErr (SubProgram.option ["parser"] [] ["--parser"] "parser").2 = true ∧
    isErr (SubProgram.add_subprog ["parser"] [] "parser").2 = true := by
  refine ⟨C7_config_errors_raise.1 ["parser"] [] "v", ?_, ?_, ?_⟩
  · exact C7_config_errors_raise.2.1 ["parser"] [] ["verbose"] "verbose"
      "verbose" (by simp) (by rfl)
  · exact C7_config_errors_raise.2.2.1 ["parser"] [] ["--parser"] "parser"
      (by simp)
  · exact C7_config_errors_raise.2.2.2 ["parser"] [] "parser" (by simp)

/-- C10: when the global-option call fails with the attribute-clash
error, the argument has already been added to the underlying parser:
the call returns the clash error, yet the resulting parser state is
the old state extended with the new argument, so registration is not
atomic on this error. -/
theorem C10_parser_mutated_on_clash (attrs : List String) (st : ParserState)
    (args : List String) (dest : String)
    (hne : args ≠ []) (hdash : args.all (fun a => pyStartsWith a "-") = true)
    (hclash : dest ∈ attrs) :
    (SubProgram.option attrs st args dest).2 =
      Except.error "Option name clashes with an existing attribute." ∧
    (SubProgram.option attrs st args dest).1 = st ++ [args] := by
  simp [SubProgram.option, hne, hdash, hclash]

/-- C10 witness: a concrete clashing option call (--parser on a node
that already has a parser attribute) errors while still extending the
parser state. -/
theorem C10_parser_mutated_on_clash_witness :
    (SubProgram.option ["parser"] [["--old"]] ["--parser"] "parser").2 =
      Except.error "Option name clashes with an existing attribute." ∧
    (SubProgram.option ["parser"] [["--old"]] ["--parser"] "parser").1 =
      [["--old"], ["--parser"]] := by
  exact C10_parser_mutated_on_clash ["parser"] [["--old"]] ["--parser"] "parser"
    (by simp) (by rfl) (by simp)

/-- C8: the docstring normalization never returns null descriptions:
for every parsed (short, long) pair the long description falls back to
the short one when the long one is absent, the short falls back to the
empty string when absent, and both are empty when both are absent; on
the reference inputs, empty text yields two empty strings, a summary
plus blank line plus body yields (summary, body), and a lone summary
is returned for both descriptions. -/
theorem C8_docstring_fallback :
    docstring_desc "" = ("", "") ∧
    docstring_desc "help\n\ndesc" = ("help", "desc") ∧
    docstring_desc "only help." = ("only help.", "only help.") ∧
    (∀ p : Option String × Option String,
      (p.2 = Option.none →
        (docstring_descriptions p).2 = (docstring_descriptions p).1) ∧
      (p.1 = Option.none → (docstring_descriptions p).1 = "") ∧
      (p.1 = Option.none ∧ p.2 = Option.none →
        docstring_descriptions p = ("", ""))) := by
  refine ⟨by rfl, by rfl, by rfl, ?_⟩
  rintro ⟨s, l⟩
  refine ⟨?_, ?_, ?_⟩
  · rintro rfl
    rfl
  · rintro rfl
    rfl
  · rintro ⟨rfl, rfl⟩
    rfl

/-- C8 witness: the fallback clauses applied at the concrete parses of
a lone summary (long absent) and of blank text (both absent). -/
theorem C8_docstring_fallback_witness :
    (docstring_descriptions (some "only help.", Option.none)).2 =
      (docstring_descriptions (some "only help.", Option.none)).1 ∧
    docstring_descriptions (Option.none, Option.none) = ("", "") := by
  refine ⟨(C8_docstring_fallback.2.2.2 (some "only help.", Option.none)).1 rfl,
    ?_⟩
  exact (C8_docstring_fallback.2.2.2 (Option.none, Option.none)).2.2 ⟨rfl, rfl⟩

theorem splitParasStep_blank (st : List String × Option Nat) :
    splitParasStep st "" = (st.1 ++ [""], Option.none) := by
  have he : stripChars "".data = [] := rfl
  simp [splitParasStep, he]

theorem splitParasStep_after_blank (ps : List String) (line : String)
    (h : stripChars line.data ≠ []) :
    splitParasStep (ps, Option.none) line =
      (ps ++ [line], some (indents line).2) := by
  simp [splitParasStep, h]

/-- C9: for a two-paragraph input, one whose preprocessed text splits
into a first text line, one blank line and a second text line, the
reflow at width 80 is the wrapped first paragraph, then exactly one
literal empty line, then the wrapped second paragraph: the blank
separator line survives in the output and is not eaten by
wrapping. -/
theorem C9_blank_line_preserved (text l1 l2 : String)
    (h : pySplitlines (collapseBlankRuns
      (String.mk (stripChars (pyDedent text).data))) = [l1, "", l2])
    (h1 : stripChars l1.data ≠ [])
    (h2 : stripChars l2.data ≠ []) :
    para_reformat text 80 =
      reformatPara l1 80 ++ [""] ++ reformatPara l2 80 := by
  have hparas : split_paragraphs text = [l1, "", l2] := by
    unfold split_paragraphs
    rw [h, List.foldl_cons, splitParasStep_after_blank [] l1 h1,
      List.foldl_cons, splitParasStep_blank, List.foldl_cons,
      splitParasStep_after_blank ([] ++ [l1] ++ [""]) l2 h2, List.foldl_nil]
    simp
  unfold para_reformat
  rw [hparas, List.foldl_cons, List.foldl_cons, List.foldl_cons,
    List.foldl_nil]
  have hblank : reformatPara "" 80 = [""] := rfl
  rw [hblank]
  simp [List.append_assoc]

/-- C9 witness: a concrete two-paragraph help text at width 80. -/
theorem C9_blank_line_preserved_witness :
    para_reformat "First paragraph text here.\n\nSecond paragraph text." 80 =
      reformatPara "First paragraph text here." 80 ++ [""] ++
        reformatPara "Second paragraph text." 80 := by
  exact C9_blank_line_preserved
    "First paragraph text here.\n\nSecond paragraph text."
    "First paragraph text here." "Second paragraph text."
    (by decide) (by decide) (by decide)

end Cltoolbox
